import Mathlib

/-!
Verification development for the RandomX_CUDA repository (kernel.cu).

The single source file under scrutiny is the host driver `kernel.cu`: it
contains the budget planner, the mining orchestration loop (`test_mining`),
and the verification harness (`tests`).  The device kernel bodies
(`blake2b_cuda.hpp`, `aes_cuda.hpp`) and the sequential references
(`blake2/blake2.h`, `aes/hashAes1Rx4.hpp`) are separate headers that are not
part of the source under `src/`; where a claim depends on them they are
modelled from the specification, as noted in the doc comments below.

Machine integers are modelled as `Nat` with explicit reduction modulo
`2 ^ 64` (words) and `2 ^ 32` (the nonce field).
-/

set_option maxRecDepth 100000

/-! ## 64-bit word primitives -/

/-- Modulus of a 64-bit machine word. -/
def M64 : Nat := 18446744073709551616

/-- Modulus of a 32-bit machine word (the nonce field width). -/
def M32 : Nat := 4294967296

/-- 64-bit wrapping addition. -/
def add64 (a b : Nat) : Nat := (a + b) % M64

/-- 64-bit right rotation (input assumed < 2 ^ 64). -/
def rotr64 (x n : Nat) : Nat := ((x >>> n) ||| ((x <<< (64 - n)) % M64)) % M64

/-! ## BLAKE2b

Modelled from the spec: the keyed-hash primitive (the sequential reference
`blake2b` from `blake2/blake2.h` and the device implementation in
`blake2b_cuda.hpp` are not in `src/`).  The spec describes it as the
standard keyed sponge hash with two selectable digest widths whose output
length is encoded inside the primitive; this is the standard BLAKE2b of
RFC 7693 (unkeyed, since all call sites in `kernel.cu` pass a null key).
The implementation below is validated against the RFC's public test vector
(see `blake2b_abc_vector`).
-/

/-- BLAKE2b initialization vector (RFC 7693). -/
def blake2bIV : List Nat :=
  [0x6a09e667f3bcc908, 0xbb67ae8584caa73b, 0x3c6ef372fe94f82b, 0xa54ff53a5f1d36f1,
   0x510e527fade682d1, 0x9b05688c2b3e6c1f, 0x1f83d9abfb41bd6b, 0x5be0cd19137e2179]

/-- BLAKE2b message schedule (RFC 7693), rows 0-9; round r uses row r mod 10. -/
def blake2bSchedule : List (List Nat) :=
  [[0, 1, 2, 3, 4, 5, 6, 7, 8, 9, 10, 11, 12, 13, 14, 15],
   [14, 10, 4, 8, 9, 15, 13, 6, 1, 12, 0, 2, 11, 7, 5, 3],
   [11, 8, 12, 0, 5, 2, 15, 13, 10, 14, 3, 6, 7, 1, 9, 4],
   [7, 9, 3, 1, 13, 12, 11, 14, 2, 6, 5, 10, 4, 0, 15, 8],
   [9, 0, 5, 7, 2, 4, 10, 15, 14, 1, 11, 12, 6, 8, 3, 13],
   [2, 12, 6, 10, 0, 11, 8, 3, 4, 13, 7, 5, 15, 14, 1, 9],
   [12, 5, 1, 15, 14, 13, 4, 10, 0, 7, 6, 3, 9, 2, 8, 11],
   [13, 11, 7, 14, 12, 1, 3, 9, 5, 0, 15, 4, 8, 6, 2, 10],
   [6, 15, 14, 9, 11, 3, 0, 8, 12, 2, 13, 7, 1, 4, 10, 5],
   [10, 2, 8, 4, 7, 6, 1, 5, 15, 11, 9, 14, 3, 12, 13, 0]]

/-- The BLAKE2b mixing function G acting on the 16-word work vector. -/
def blakeG (v : List Nat) (a b c d x y : Nat) : List Nat :=
  let va := add64 (add64 (v.getD a 0) (v.getD b 0)) x
  let vd := rotr64 ((v.getD d 0) ^^^ va) 32
  let vc := add64 (v.getD c 0) vd
  let vb := rotr64 ((v.getD b 0) ^^^ vc) 24
  let va2 := add64 (add64 va vb) y
  let vd2 := rotr64 (vd ^^^ va2) 16
  let vc2 := add64 vc vd2
  let vb2 := rotr64 (vb ^^^ vc2) 63
  (((v.set a va2).set b vb2).set c vc2).set d vd2

/-- One BLAKE2b round: eight G applications according to the schedule row. -/
def blakeRound (m : List Nat) (v : List Nat) (r : Nat) : List Nat :=
  let s := blake2bSchedule.getD (r % 10) []
  let mi := fun j => m.getD (s.getD j 0) 0
  let v1 := blakeG v 0 4 8 12 (mi 0) (mi 1)
  let v2 := blakeG v1 1 5 9 13 (mi 2) (mi 3)
  let v3 := blakeG v2 2 6 10 14 (mi 4) (mi 5)
  let v4 := blakeG v3 3 7 11 15 (mi 6) (mi 7)
  let v5 := blakeG v4 0 5 10 15 (mi 8) (mi 9)
  let v6 := blakeG v5 1 6 11 12 (mi 10) (mi 11)
  let v7 := blakeG v6 2 7 8 13 (mi 12) (mi 13)
  blakeG v7 3 4 9 14 (mi 14) (mi 15)

/-- The BLAKE2b compression function F (RFC 7693): `h` is the 8-word chain
value, `m` the 16-word message block, `t` the byte counter, `f` the
final-block flag. -/
def blake2bCompress (h : List Nat) (m : List Nat) (t : Nat) (f : Bool) : List Nat :=
  let v0 := h ++ blake2bIV
  let v1 := v0.set 12 ((v0.getD 12 0) ^^^ (t % M64))
  let v2 := v1.set 13 ((v1.getD 13 0) ^^^ (t / M64 % M64))
  let v3 := if f then v2.set 14 ((v2.getD 14 0) ^^^ (M64 - 1)) else v2
  let w := (List.range 12).foldl (blakeRound m) v3
  (List.range 8).map (fun i => (h.getD i 0) ^^^ (w.getD i 0) ^^^ (w.getD (i + 8) 0))

/-- Little-endian byte list to word (missing high bytes read as zero). -/
def bytesToWord64 (bs : List Nat) : Nat := bs.foldr (fun b acc => b % 256 + 256 * acc) 0

/-- A (possibly short, zero-padded) byte list as a 16-word message block. -/
def bytesToBlock (bs : List Nat) : List Nat :=
  (List.range 16).map (fun i => bytesToWord64 ((bs.drop (8 * i)).take 8))

/-- Little-endian bytes of a 64-bit word. -/
def word64ToBytes (w : Nat) : List Nat := (List.range 8).map (fun i => (w >>> (8 * i)) % 256)

/-- Little-endian bytes of a word list. -/
def wordsToBytes (ws : List Nat) : List Nat := ws.flatMap word64ToBytes

/-- BLAKE2b with digest length `outlen` (1-64) of a byte-list message, no key.
The digest length is encoded into the initial chain value `h0`, per RFC 7693. -/
def blake2b (outlen : Nat) (msg : List Nat) : List Nat :=
  let h0 := blake2bIV.set 0 ((blake2bIV.getD 0 0) ^^^ (0x01010000 ^^^ outlen))
  let n := msg.length
  let nb := max 1 ((n + 127) / 128)
  let h := (List.range nb).foldl
    (fun h i =>
      blake2bCompress h (bytesToBlock ((msg.drop (128 * i)).take 128))
        (if i = nb - 1 then n else (i + 1) * 128) (i = nb - 1)) h0
  (wordsToBytes h).take outlen

/-- RFC 7693 appendix test vector: BLAKE2b-512 of the three bytes "abc".
This pins the model above to the real primitive used by the repository. -/
theorem blake2b_abc_vector :
    blake2b 64 [0x61, 0x62, 0x63] =
    [0xba, 0x80, 0xa5, 0x3f, 0x98, 0x1c, 0x4d, 0x0d, 0x6a, 0x27, 0x97, 0xb6, 0x9f, 0x12, 0xf6, 0xe9,
     0x4c, 0x21, 0x2f, 0x14, 0x68, 0x5a, 0xc4, 0xb7, 0x4b, 0x12, 0xbb, 0x6f, 0xdb, 0xff, 0xa2, 0xd1,
     0x7d, 0x87, 0xc5, 0x39, 0x2a, 0xab, 0x79, 0x2d, 0xc2, 0x52, 0xd5, 0xde, 0x45, 0x33, 0xcc, 0x95,
     0x18, 0xd3, 0x8a, 0xa8, 0xdb, 0xf1, 0x92, 0x5a, 0xb9, 0x23, 0x86, 0xed, 0xd4, 0x00, 0x99, 0x23] := by
  decide

/-! ## The shared block template and the initial-hash kernel (claim C2) -/

/-- The 76-byte shared block template, copied verbatim from `kernel.cu`
lines 75-80.  Bytes 39-42 (the 32-bit little-endian nonce field) are zero. -/
def blockTemplate : List Nat :=
  [0x07, 0x07, 0xf7, 0xa4, 0xf0, 0xd6, 0x05, 0xb3, 0x03, 0x26, 0x08, 0x16, 0xba, 0x3f, 0x10, 0x90,
   0x2e, 0x1a, 0x14, 0x5a, 0xc5, 0xfa, 0xd3, 0xaa, 0x3a, 0xf6, 0xea, 0x44, 0xc1, 0x18, 0x69, 0xdc,
   0x4f, 0x85, 0x3f, 0x00, 0x2b, 0x2e, 0xea, 0x00, 0x00, 0x00, 0x00, 0x77, 0xb2, 0x06, 0xa0, 0x2c,
   0xa5, 0xb1, 0xd4, 0xce, 0x6b, 0xbf, 0xdf, 0x0a, 0xca, 0xc3, 0x8b, 0xde, 0xd3, 0x4d, 0x2d, 0xcd,
   0xee, 0xf9, 0x5c, 0xd2, 0x0c, 0xef, 0xc1, 0x2f, 0x61, 0xd5, 0x61, 0x09]

/-- Store a 32-bit value as four little-endian bytes at byte offset 39 of the
template, exactly as the harness's host reference does with
`*(uint32_t*)(blockTemplate + 39) = i` (kernel.cu line 357). -/
def setNonceBytes (t : List Nat) (n : Nat) : List Nat :=
  (((t.set 39 (n % 256)).set 40 (n / 256 % 256)).set 41 (n / 65536 % 256)).set 42
    (n / 16777216 % 256)

/-- Modelled from the spec: the `blake2b_initial_hash` device kernel
(`blake2b_cuda.hpp`, not in `src/`).  Per spec section 4.2, lane `i` computes the
keyed sponge hash (BLAKE2b-512) of the template with its 32-bit little-endian
nonce field at byte offset 39 overwritten by `nonceBase + i`, wrapped to the
32-bit field. -/
def blake2b_initial_hash (t : List Nat) (nonceBase lane : Nat) : List Nat :=
  blake2b 64 (setNonceBytes t ((nonceBase + lane) % M32))

/-- The parallel initial-hash kernel over a whole batch of `l` lanes: one
64-byte digest per lane (`hashes_gpu` holds them contiguously). -/
def initialHashBatch (t : List Nat) (nonceBase l : Nat) : List (List Nat) :=
  (List.range l).map (fun i => blake2b_initial_hash t nonceBase i)

/-- The sequential reference of the harness (kernel.cu lines 355-358): the
host stores the 32-bit nonce at offset 39 and calls the reference
`blake2b(out, 64, template, 76, nullptr, 0)`. -/
def referenceInitialHash (t : List Nat) (n : Nat) : List Nat :=
  blake2b 64 (setNonceBytes t (n % M32))

/-! ## The register-fold kernel (claims C3, C4) -/

/-- The register file is 256 bytes per lane: `hashAes1Rx4<SCRATCHPAD_SIZE,
192, REGISTERS_SIZE>` writes a 64-byte group at offset 192 of each lane's
register file (kernel.cu lines 243, 458, 474). -/
def REGISTERS_SIZE : Nat := 256

/-- Modelled from the spec: the `blake2b_hash_registers` device kernel
(`blake2b_cuda.hpp`, not in `src/`).  Per spec section 4.2, it computes the keyed
sponge hash of a lane's register file at the caller-selected digest width
(32 or 64 bytes); the width is encoded inside the primitive. -/
def blake2b_hash_registers (width : Nat) (regs : List Nat) : List Nat :=
  blake2b width regs

/-- Lane `i`'s register bytes inside the batch register buffer. -/
def registersSlice (regsBuf : List Nat) (i : Nat) : List Nat :=
  (regsBuf.drop (REGISTERS_SIZE * i)).take REGISTERS_SIZE

/-- The parallel register-fold kernel over a batch: one digest per lane. -/
def foldRegistersBatch (width : Nat) (regsBuf : List Nat) (l : Nat) : List (List Nat) :=
  (List.range l).map (fun i => blake2b_hash_registers width (registersSlice regsBuf i))

/-- The sequential reference of the harness (kernel.cu lines 502, 530): the
host reference `blake2b(out, width, registers, REGISTERS_SIZE, nullptr, 0)`. -/
def referenceFoldRegisters (width : Nat) (regs : List Nat) : List Nat :=
  blake2b width regs

/-- An all-zero register file (the registers are zero-initialized by
`cudaMemset` in kernel.cu line 170). -/
def zeroRegisters : List Nat := List.replicate REGISTERS_SIZE 0

/-! ## The cipher fill model (claims C1, C10)

Modelled from the spec: the `fillAes1Rx4` kernel body (`aes_cuda.hpp`) and its
sequential reference (`aes/hashAes1Rx4.hpp`) are not in `src/`.  Per spec
section 4.3 the fill expands a 64-byte per-lane seed state by one cipher round
per 64-byte output chunk; the round function itself is a black box, so the
model is parameterized by an arbitrary state type `σ`, a round step
`step : σ → σ` and a chunk serialization `emit : σ → List Nat`.  The storage
layouts are fixed by the harness's byte-for-byte comparisons in `src/`:
the scratchpad-mode output is interleaved in 64-byte chunks at a stride of
the batch size (kernel.cu lines 401-410), the program-mode output is stored
contiguously per lane (kernel.cu line 447).
-/

/-- The per-lane cipher state after `k` rounds from seed state `s`. -/
def cipherState {σ : Type} (step : σ → σ) (s : σ) : Nat → σ
  | 0 => s
  | k + 1 => step (cipherState step s k)

/-- Sequential cipher-stream expansion of seed `s` to `m` 64-byte chunks into
a contiguous per-lane buffer: chunk `k` is the state after `k + 1` rounds. -/
def fillChunks {σ : Type} (step : σ → σ) (emit : σ → List Nat) (s : σ) (m : Nat) :
    List (List Nat) :=
  (List.range m).map (fun k => emit (cipherState step s (k + 1)))

/-- The seed state left behind after filling `m` chunks: the fill writes its
final cipher state back into the lane's hash-state slot (verified by the
harness at kernel.cu lines 393-399 and 439-445). -/
def fillFinalState {σ : Type} (step : σ → σ) (s : σ) (m : Nat) : σ :=
  cipherState step s m

/-- The lane-`i` final state of the parallel fill over a batch of seeds. -/
def parallelFillFinalState {σ : Type} (step : σ → σ) (seeds : Nat → σ) (m i : Nat) : σ :=
  cipherState step (seeds i) m

/-- Scratchpad-mode parallel fill output over `l` lanes and `m` chunks per
lane, interleaved: the chunk at buffer index `c * l + i` is lane `i`'s chunk
`c` (byte offset `i * 64 + c * 64 * l`, kernel.cu lines 401-410). -/
def scratchpadFillBuffer {σ : Type} (step : σ → σ) (emit : σ → List Nat) (seeds : Nat → σ)
    (l m : Nat) : List (List Nat) :=
  (List.range (m * l)).map (fun idx => emit (cipherState step (seeds (idx % l)) (idx / l + 1)))

/-- Program-mode parallel fill output over `l` lanes and `m` chunks per lane,
stored contiguously per lane: the chunk at buffer index `i * m + c` is lane
`i`'s chunk `c` (kernel.cu line 447 compares lane slices contiguously). -/
def programFillBuffer {σ : Type} (step : σ → σ) (emit : σ → List Nat) (seeds : Nat → σ)
    (l m : Nat) : List (List Nat) :=
  (List.range (l * m)).map (fun idx => emit (cipherState step (seeds (idx / m)) (idx % m + 1)))

/-- De-interleave lane `i` out of an interleaved buffer: read the lane's
64-byte chunks at a stride of the batch size `l`. -/
def deinterleave (l i m : Nat) (buf : List (List Nat)) : List (List Nat) :=
  (List.range m).map (fun c => buf.getD (c * l + i) [])

/-- Lane `i`'s contiguous `m`-chunk slice of a per-lane-contiguous buffer. -/
def laneSlice (i m : Nat) (buf : List (List Nat)) : List (List Nat) :=
  (List.range m).map (fun c => buf.getD (i * m + c) [])

/-- A sequence of fills chained through the in-place hash state: the `hashes`
buffer is handed unchanged from one `fillAes1Rx4` launch to the next
(kernel.cu lines 221 and 230; harness lines 371 and 417), so each fill
consumes the state left by the previous fill. -/
def runFills {σ : Type} (step : σ → σ) (s : σ) (ms : List Nat) : σ :=
  ms.foldl (fun t n => fillFinalState step t n) s

/-! ## Batch sizing (claim C5)

From `test_mining` (kernel.cu lines 120-127).  The concrete dataset and
scratchpad sizes are header constants not in `src/`, so they are parameters
here; the headroom is the literal `64U << 20` of line 121.
-/

/-- The fixed operational headroom, `64U << 20` bytes (kernel.cu line 121). -/
def HEADROOM : Nat := 64 <<< 20

/-- The budget planner of `test_mining` (kernel.cu lines 121-127): fail when
`free_mem <= DATASET_SIZE + 32 * SCRATCHPAD_SIZE + (64U << 20)`, otherwise
`batch_size = (((free_mem - DATASET_SIZE - (64U << 20)) / SCRATCHPAD_SIZE) / 32) * 32`. -/
def plan_batch (free dataset scratchpad : Nat) : Option Nat :=
  if free ≤ dataset + 32 * scratchpad + HEADROOM then none
  else some ((((free - dataset - HEADROOM) / scratchpad) / 32) * 32)

/-- The host-side setup actions of `test_mining`, in program order. -/
inductive SetupEvent where
  | memQuery
  | insufficientMemory
  | allocDataset
  | allocScratchpads
  | allocHashes
  | allocPrograms
  | allocRegisters
  | allocTemplate
deriving DecidableEq

/-- Whether a setup event is a per-batch buffer allocation. -/
def isAllocEvent : SetupEvent → Bool
  | SetupEvent.memQuery => false
  | SetupEvent.insufficientMemory => false
  | _ => true

/-- The setup sequence of `test_mining` (kernel.cu lines 106-188): query free
memory, then either fail on insufficient memory or allocate the dataset,
scratchpad, hash, program, register and template buffers in that order. -/
def miningSetup (free dataset scratchpad : Nat) : List SetupEvent :=
  match plan_batch free dataset scratchpad with
  | none => [SetupEvent.memQuery, SetupEvent.insufficientMemory]
  | some _ =>
    [SetupEvent.memQuery, SetupEvent.allocDataset, SetupEvent.allocScratchpads,
     SetupEvent.allocHashes, SetupEvent.allocPrograms, SetupEvent.allocRegisters,
     SetupEvent.allocTemplate]

/-! ## The mining loop trace (claims C3, C6, C8, C9)

The event trace of `test_mining`'s search loop (kernel.cu lines 184-273),
parameterized by the program-round count `n` (the header constant
`PROGRAM_COUNT`, not in `src/`), the batch size `l` and the batch counter `k`.
Each launch event carries a flag recording whether the source follows the
launch with an explicit `cudaGetLastError` check.
-/

/-- The nonce window of batch `k`: the loop variable is a `uint32_t`
initialized to 0 and incremented by `batch_size` per batch (kernel.cu
line 201), hence `k * l` wrapped to 32 bits. -/
def nonceAt (l k : Nat) : Nat := (k * l) % M32

/-- Host and kernel events of the mining loop. -/
inductive MEvent where
  | hostWriteTemplate
  | launchInitialHash (nonce : Nat) (checked : Bool)
  | launchFillScratch (checked : Bool)
  | launchFillProgram (checked : Bool)
  | launchInitRegs (checked : Bool)
  | launchCompressScratch (checked : Bool)
  | launchFoldRegs (width : Nat) (checked : Bool)
  | deviceSync (checked : Bool)
deriving DecidableEq

/-- Whether an event is a kernel launch that the source does not follow with
an explicit `cudaGetLastError` check. -/
def isUncheckedLaunch : MEvent → Bool
  | MEvent.launchInitialHash _ c => !c
  | MEvent.launchFillScratch c => !c
  | MEvent.launchFillProgram c => !c
  | MEvent.launchInitRegs c => !c
  | MEvent.launchCompressScratch c => !c
  | MEvent.launchFoldRegs _ c => !c
  | _ => false

/-- Whether an event is the scratchpad-compress kernel launch. -/
def isCompressLaunch : MEvent → Bool
  | MEvent.launchCompressScratch _ => true
  | _ => false

/-- Whether an event is a host write to the shared template buffer. -/
def isHostTemplateWrite : MEvent → Bool
  | MEvent.hostWriteTemplate => true
  | _ => false

/-- Program round `i` of a batch (kernel.cu lines 228-266): fill the program
buffer (launch checked), initialize registers (launch NOT followed by any
check, line 237), then on the last round only compress the scratchpad into
registers (checked) and fold registers at width 32 (checked); on the other
rounds fold registers at width 64 (checked). -/
def roundEvents (n i : Nat) : List MEvent :=
  [MEvent.launchFillProgram true, MEvent.launchInitRegs false] ++
    (if i = n - 1 then [MEvent.launchCompressScratch true, MEvent.launchFoldRegs 32 true]
     else [MEvent.launchFoldRegs 64 true])

/-- One batch of the mining loop (kernel.cu lines 214-272): the initial-hash
kernel receives the current nonce window as a launch argument, then the
scratchpad fill, the `n` program rounds, and a checked device
synchronization. -/
def batchEvents (n l k : Nat) : List MEvent :=
  MEvent.launchInitialHash (nonceAt l k) true :: MEvent.launchFillScratch true ::
    ((List.range n).flatMap (roundEvents n) ++ [MEvent.deviceSync true])

/-- The mining run over `batches` batches (kernel.cu lines 184-273): the host
uploads the template once, before any kernel launch (line 184), and never
writes it again; each batch then runs `batchEvents`. -/
def miningEvents (n l batches : Nat) : List MEvent :=
  MEvent.hostWriteTemplate :: (List.range batches).flatMap (batchEvents n l)

/-- The `uint32_t` loop guard of the search loop (kernel.cu line 201):
`nonce < 0xFFFFFFFFUL`, evaluated at batch `k`. -/
def miningLoopGuard (l k : Nat) : Bool := nonceAt l k < 4294967295

/-! ## The validation harness control flow (claim C7)

From `tests()` (kernel.cu lines 278-540): six verification cases run in
order (initial hash, scratchpad fill, program fill, scratchpad compress,
32-byte register fold, 64-byte register fold).  Each case compares kernel
output against the sequential reference and, on mismatch, prints the failure
and RETURNS from `tests()`; `main` then proceeds to `cudaDeviceReset` and
exits 0, so a mismatch never changes the process exit code.
-/

/-- Indices of the verification cases that actually execute, given each
case's match result in order (`true` = kernel output matched the
reference): a case runs only if every earlier case matched. -/
def casesRun : List Bool → List Nat
  | [] => []
  | ok :: rest => 0 :: (if ok then (casesRun rest).map (fun j => j + 1) else [])

/-- The number of verification cases in `tests()`. -/
def NUM_TEST_CASES : Nat := 6

/-- The process exit code of validation mode as a function of the case
results: `tests()` returns `void` and `main` returns 0 after a successful
device reset, regardless of any mismatch. -/
def testModeExitCode (_results : List Bool) : Nat := 0

/-! ## Helper lemmas -/

theorem interleave_div {l : Nat} (c i : Nat) (hi : i < l) : (c * l + i) / l = c := by
  have hl : 0 < l := Nat.lt_of_le_of_lt (Nat.zero_le i) hi
  rw [Nat.mul_comm, Nat.mul_add_div hl, Nat.div_eq_of_lt hi, Nat.add_zero]

theorem interleave_mod {l : Nat} (c i : Nat) (hi : i < l) : (c * l + i) % l = i := by
  rw [Nat.mul_comm, Nat.mul_add_mod, Nat.mod_eq_of_lt hi]

theorem interleave_lt {l m : Nat} (c i : Nat) (hc : c < m) (hi : i < l) :
    c * l + i < m * l := by
  have h1 : c * l + i < (c + 1) * l := by
    rw [Nat.succ_mul]
    exact Nat.add_lt_add_left hi (c * l)
  exact Nat.lt_of_lt_of_le h1 (Nat.mul_le_mul_right l hc)

theorem cipherState_add {σ : Type} (step : σ → σ) (s : σ) (a b : Nat) :
    cipherState step (cipherState step s a) b = cipherState step s (a + b) := by
  induction b with
  | zero => rfl
  | succ b ih => rw [Nat.add_succ]; simp only [cipherState, ih]; rfl

theorem blake2bCompress_length (h m : List Nat) (t : Nat) (f : Bool) :
    (blake2bCompress h m t f).length = 8 := by
  simp [blake2bCompress]

theorem foldl_length_const {α : Type} (f : List Nat → α → List Nat)
    (hf : ∀ h a, (f h a).length = 8) :
    ∀ (l : List α) (h : List Nat), h.length = 8 → (l.foldl f h).length = 8 := by
  intro l
  induction l with
  | nil => intro h hh; simpa using hh
  | cons a l ih => intro h hh; simp only [List.foldl_cons]; exact ih _ (hf h a)

theorem wordsToBytes_length (ws : List Nat) : (wordsToBytes ws).length = 8 * ws.length := by
  induction ws with
  | nil => rfl
  | cons w ws ih =>
    simp only [wordsToBytes, List.flatMap_cons, List.length_append] at *
    rw [ih]
    simp [word64ToBytes]
    omega

theorem blake2b_length (outlen : Nat) (msg : List Nat) (hout : outlen ≤ 64) :
    (blake2b outlen msg).length = outlen := by
  have h8 : (blake2bIV.set 0 ((blake2bIV.getD 0 0) ^^^ (0x01010000 ^^^ outlen))).length = 8 := by
    simp [blake2bIV]
  simp only [blake2b]
  rw [List.length_take, wordsToBytes_length,
    foldl_length_const _ (fun h a => blake2bCompress_length h _ _ _) _ _ h8]
  omega

/-! ## Claim C1 -/

/-- Claim C1 counterexample: the claim asserts that for BOTH region sizes the
parallel fill output is interleaved and de-interleaving it (stride = batch
size) recovers the sequential stream.  For the program region the output is
stored contiguously per lane (the harness compares it contiguously,
kernel.cu line 447), so de-interleaving it does not: with 2 lanes, 2 chunks,
a concrete round step and distinct seeds, de-interleaving lane 0 of the
program-mode output differs from lane 0's sequential stream. -/
theorem c1_counterexample :
    deinterleave 2 0 2 (programFillBuffer Nat.succ (fun s => [s]) (fun i => 10 * i) 2 2) ≠
      fillChunks Nat.succ (fun s => [s]) 0 2 := by
  decide

/-- Claim C1 (amended): the fill output is byte-for-byte the sequential
cipher-stream expansion of each lane's seed, with the storage transform
depending on the region: the scratchpad-mode output is interleaved, and
de-interleaving lane `i` (reading 64-byte chunks at a stride of the batch
size) recovers lane `i`'s sequential stream; the program-mode output is
stored contiguously per lane, and lane `i`'s contiguous slice equals lane
`i`'s sequential stream directly.  In both cases the storage layout is a
transform only, never a semantic one. -/
theorem c1_fill_roundtrip {σ : Type} (step : σ → σ) (emit : σ → List Nat) (seeds : Nat → σ)
    (l m i : Nat) (hi : i < l) :
    deinterleave l i m (scratchpadFillBuffer step emit seeds l m) =
      fillChunks step emit (seeds i) m ∧
    laneSlice i m (programFillBuffer step emit seeds l m) =
      fillChunks step emit (seeds i) m := by
  constructor
  · apply List.ext_getElem
    · simp [deinterleave, fillChunks]
    · intro c h1 h2
      have hc : c < m := by simpa [deinterleave] using h1
      have hbuf : (scratchpadFillBuffer step emit seeds l m).length = m * l := by
        simp [scratchpadFillBuffer]
      simp only [deinterleave, fillChunks, List.getElem_map, List.getElem_range]
      rw [List.getD_eq_getElem _ _ (by rw [hbuf]; exact interleave_lt c i hc hi)]
      simp only [scratchpadFillBuffer, List.getElem_map, List.getElem_range]
      rw [interleave_div c i hi, interleave_mod c i hi]
  · apply List.ext_getElem
    · simp [laneSlice, fillChunks]
    · intro c h1 h2
      have hc : c < m := by simpa [laneSlice] using h1
      have hbuf : (programFillBuffer step emit seeds l m).length = l * m := by
        simp [programFillBuffer]
      simp only [laneSlice, fillChunks, List.getElem_map, List.getElem_range]
      rw [List.getD_eq_getElem _ _ (by rw [hbuf]; exact interleave_lt i c hi hc)]
      simp only [programFillBuffer, List.getElem_map, List.getElem_range]
      rw [interleave_div i c hc, interleave_mod i c hc]

/-- Witness for `c1_fill_roundtrip` at a concrete instance: 4 lanes, 3
chunks, lane 2, with a concrete round step and seeds. -/
theorem c1_fill_roundtrip_witness :
    2 < 4 ∧
    (deinterleave 4 2 3 (scratchpadFillBuffer Nat.succ (fun s => [s % 256]) (fun i => 100 * i) 4 3) =
        fillChunks Nat.succ (fun s => [s % 256]) ((fun i => 100 * i) 2) 3 ∧
      laneSlice 2 3 (programFillBuffer Nat.succ (fun s => [s % 256]) (fun i => 100 * i) 4 3) =
        fillChunks Nat.succ (fun s => [s % 256]) ((fun i => 100 * i) 2) 3) :=
  ⟨by decide, c1_fill_roundtrip Nat.succ (fun s => [s % 256]) (fun i => 100 * i) 4 3 2 (by decide)⟩

/-! ## Claim C2 -/

/-- Claim C2: for every shared template, nonce base and lane index `i` of a
batch of `l` lanes, the parallel initial-hash kernel's digest for lane `i`
equals the sequential reference blake2b-512 hash of the template with its
32-bit little-endian nonce field at byte offset 39 overwritten by
`nonceBase + i` (wrapped in the 32-bit field); the digest is 64 bytes and
the patched message keeps the template's 76-byte length.  The kernel model
does not depend on the batch size or lane position beyond the lane's own
nonce. -/
theorem c2_initial_hash (t : List Nat) (b l i : Nat) (hi : i < l) (ht : t.length = 76) :
    (initialHashBatch t b l).getD i [] = referenceInitialHash t (b + i) ∧
    ((initialHashBatch t b l).getD i []).length = 64 ∧
    (setNonceBytes t ((b + i) % M32)).length = 76 := by
  have hlen : i < (initialHashBatch t b l).length := by simpa [initialHashBatch] using hi
  refine ⟨?_, ?_, ?_⟩
  · rw [List.getD_eq_getElem _ _ hlen]
    simp only [initialHashBatch, List.getElem_map, List.getElem_range]
    rfl
  · rw [List.getD_eq_getElem _ _ hlen]
    simp only [initialHashBatch, List.getElem_map, List.getElem_range]
    exact blake2b_length 64 _ (by omega)
  · simp [setNonceBytes, ht]

/-- Witness for `c2_initial_hash`: lane 5 of an 8-lane batch with nonce base
0 over the repository's actual 76-byte block template, matching the harness
scenario of kernel.cu lines 341-367. -/
theorem c2_initial_hash_witness :
    5 < 8 ∧ blockTemplate.length = 76 ∧
    ((initialHashBatch blockTemplate 0 8).getD 5 [] = referenceInitialHash blockTemplate (0 + 5) ∧
      ((initialHashBatch blockTemplate 0 8).getD 5 []).length = 64 ∧
      (setNonceBytes blockTemplate ((0 + 5) % M32)).length = 76) :=
  ⟨by decide, by decide, c2_initial_hash blockTemplate 0 8 5 (by decide) (by decide)⟩

/-! ## Claim C4 -/

/-- Claim C4 counterexample: the width-32 register fold is NOT the first 32
bytes of the width-64 fold of the same register bytes.  On the all-zero
256-byte register file the two digests differ, because BLAKE2b encodes the
requested digest length into its initial chain value. -/
theorem c4_counterexample :
    blake2b_hash_registers 32 zeroRegisters ≠
      (blake2b_hash_registers 64 zeroRegisters).take 32 := by
  decide

/-- Claim C4 (amended): for every register-file contents, the parallel
register-fold at width `w ∈ {32, 64}` equals the sequential reference
blake2b of the same register bytes at the same width, and the two digests
have lengths 32 and 64 respectively; the width-32 digest is not in general
the 32-byte truncation of the width-64 digest, since the digest length is
encoded inside the primitive (see `c4_counterexample`). -/
theorem c4_fold_widths (regsBuf : List Nat) (l i : Nat) (hi : i < l) :
    (foldRegistersBatch 32 regsBuf l).getD i [] =
      referenceFoldRegisters 32 (registersSlice regsBuf i) ∧
    (foldRegistersBatch 64 regsBuf l).getD i [] =
      referenceFoldRegisters 64 (registersSlice regsBuf i) ∧
    ((foldRegistersBatch 32 regsBuf l).getD i []).length = 32 ∧
    ((foldRegistersBatch 64 regsBuf l).getD i []).length = 64 := by
  have hlen32 : i < (foldRegistersBatch 32 regsBuf l).length := by
    simpa [foldRegistersBatch] using hi
  have hlen64 : i < (foldRegistersBatch 64 regsBuf l).length := by
    simpa [foldRegistersBatch] using hi
  refine ⟨?_, ?_, ?_, ?_⟩
  · rw [List.getD_eq_getElem _ _ hlen32]
    simp only [foldRegistersBatch, List.getElem_map, List.getElem_range]
    rfl
  · rw [List.getD_eq_getElem _ _ hlen64]
    simp only [foldRegistersBatch, List.getElem_map, List.getElem_range]
    rfl
  · rw [List.getD_eq_getElem _ _ hlen32]
    simp only [foldRegistersBatch, List.getElem_map, List.getElem_range]
    exact blake2b_length 32 _ (by omega)
  · rw [List.getD_eq_getElem _ _ hlen64]
    simp only [foldRegistersBatch, List.getElem_map, List.getElem_range]
    exact blake2b_length 64 _ (by omega)

/-- Witness for `c4_fold_widths`: the single-lane batch over the all-zero
register file. -/
theorem c4_fold_widths_witness :
    0 < 1 ∧
    ((foldRegistersBatch 32 zeroRegisters 1).getD 0 [] =
        referenceFoldRegisters 32 (registersSlice zeroRegisters 0) ∧
      (foldRegistersBatch 64 zeroRegisters 1).getD 0 [] =
        referenceFoldRegisters 64 (registersSlice zeroRegisters 0) ∧
      ((foldRegistersBatch 32 zeroRegisters 1).getD 0 []).length = 32 ∧
      ((foldRegistersBatch 64 zeroRegisters 1).getD 0 []).length = 64) :=
  ⟨by decide, c4_fold_widths zeroRegisters 1 0 (by decide)⟩

/-! ## Claim C10 -/

/-- Claim C10: the fill mutates the per-lane 64-byte seed state in place:
after a fill of `m` chunks, lane `i`'s state equals the sequential
reference's final state `fillFinalState` (the state after `m` rounds), the
last emitted chunk is exactly the serialization of that final state, and a
subsequent fill (the program-buffer fill of the following round, which reads
the same `hashes` buffer) consumes the updated state rather than the
original seed — chaining two fills of `mS` and `mP` chunks equals a single
expansion by `mS + mP` rounds. -/
theorem c10_fill_state {σ : Type} (step : σ → σ) (emit : σ → List Nat) (seeds : Nat → σ)
    (l m i mS mP : Nat) (hi : i < l) (hm : 0 < m) :
    parallelFillFinalState step seeds m i = fillFinalState step (seeds i) m ∧
    (fillChunks step emit (seeds i) m).getD (m - 1) [] = emit (fillFinalState step (seeds i) m) ∧
    runFills step (seeds i) [mS, mP] =
      fillFinalState step (fillFinalState step (seeds i) mS) mP ∧
    fillFinalState step (fillFinalState step (seeds i) mS) mP =
      fillFinalState step (seeds i) (mS + mP) := by
  refine ⟨rfl, ?_, rfl, cipherState_add step (seeds i) mS mP⟩
  have hlt : m - 1 < m := Nat.sub_lt hm Nat.one_pos
  have hlen : m - 1 < (fillChunks step emit (seeds i) m).length := by
    simpa [fillChunks] using hlt
  rw [List.getD_eq_getElem _ _ hlen]
  simp only [fillChunks, List.getElem_map, List.getElem_range]
  have hsucc : m - 1 + 1 = m := by omega
  rw [hsucc]
  rfl

/-- Witness for `c10_fill_state` at a concrete instance: batch of 3 lanes,
lane 1, scratchpad fill of 4 chunks, then a program fill of 2 chunks. -/
theorem c10_fill_state_witness :
    1 < 3 ∧ 0 < 4 ∧
    (parallelFillFinalState Nat.succ (fun i => 10 * i) 4 1 =
        fillFinalState Nat.succ ((fun i => 10 * i) 1) 4 ∧
      (fillChunks Nat.succ (fun s => [s]) ((fun i => 10 * i) 1) 4).getD 3 [] =
        (fun s => [s]) (fillFinalState Nat.succ ((fun i => 10 * i) 1) 4) ∧
      runFills Nat.succ ((fun i => 10 * i) 1) [4, 2] =
        fillFinalState Nat.succ (fillFinalState Nat.succ ((fun i => 10 * i) 1) 4) 2 ∧
      fillFinalState Nat.succ (fillFinalState Nat.succ ((fun i => 10 * i) 1) 4) 2 =
        fillFinalState Nat.succ ((fun i => 10 * i) 1) (4 + 2)) :=
  ⟨by decide, by decide,
    c10_fill_state Nat.succ (fun s => [s]) (fun i => 10 * i) 3 4 1 4 2 (by decide) (by decide)⟩

/-! ## Claim C3 -/

theorem countP_compress_roundEvents (n i : Nat) :
    (roundEvents n i).countP isCompressLaunch = if i = n - 1 then 1 else 0 := by
  by_cases h : i = n - 1
  · simp only [roundEvents, if_pos h]
    decide
  · simp only [roundEvents, if_neg h]
    decide

theorem countP_compress_rounds (n : Nat) :
    ∀ j, ((List.range j).flatMap (roundEvents n)).countP isCompressLaunch =
      if n - 1 < j then 1 else 0 := by
  intro j
  induction j with
  | zero => simp
  | succ j ih =>
    rw [List.range_succ, List.flatMap_append, List.countP_append, ih]
    simp only [List.flatMap_cons, List.flatMap_nil, List.append_nil,
      countP_compress_roundEvents]
    by_cases h1 : n - 1 < j
    · rw [if_pos h1, if_neg (by omega : ¬ j = n - 1), if_pos (by omega : n - 1 < j + 1)]
    · by_cases h2 : j = n - 1
      · rw [if_neg h1, if_pos h2, if_pos (by omega : n - 1 < j + 1)]
      · rw [if_neg h1, if_neg h2, if_neg (by omega : ¬ n - 1 < j + 1)]

/-- Claim C3: in every batch of the mining loop the scratchpad-compress
kernel is launched exactly once (once per full hash, not once per round);
every program round `i` consists of the program fill, the register
initialization, and then — on the last round only — the scratchpad compress
followed by the width-32 register fold, while every earlier round ends with
the width-64 register fold.  In particular the compress precedes the last
round's register fold. -/
theorem c3_compress_once (n l k i : Nat) (hn : 0 < n) (hi : i < n) :
    (batchEvents n l k).countP isCompressLaunch = 1 ∧
    roundEvents n i =
      (if i = n - 1 then
        [MEvent.launchFillProgram true, MEvent.launchInitRegs false,
         MEvent.launchCompressScratch true, MEvent.launchFoldRegs 32 true]
       else
        [MEvent.launchFillProgram true, MEvent.launchInitRegs false,
         MEvent.launchFoldRegs 64 true]) := by
  constructor
  · simp only [batchEvents, List.countP_cons, List.countP_append,
      countP_compress_rounds n n]
    have hlast : n - 1 < n := by omega
    simp [hlast, isCompressLaunch, List.countP_cons]
  · by_cases h : i = n - 1
    · simp only [roundEvents, if_pos h]
      rfl
    · simp only [roundEvents, if_neg h]
      rfl

/-- Witness for `c3_compress_once`: 8 program rounds (the RandomX program
count), a 32-lane batch, batch 0, round 3. -/
theorem c3_compress_once_witness :
    0 < 8 ∧ 3 < 8 ∧
    ((batchEvents 8 32 0).countP isCompressLaunch = 1 ∧
      roundEvents 8 3 =
        (if 3 = 8 - 1 then
          [MEvent.launchFillProgram true, MEvent.launchInitRegs false,
           MEvent.launchCompressScratch true, MEvent.launchFoldRegs 32 true]
         else
          [MEvent.launchFillProgram true, MEvent.launchInitRegs false,
           MEvent.launchFoldRegs 64 true])) :=
  ⟨by decide, by decide, c3_compress_once 8 32 0 3 (by decide) (by decide)⟩

/-! ## Claim C5 -/

/-- Claim C5: batch sizing is the pure function `plan_batch` of the queried
memory values.  When free memory exceeds the dataset reservation plus the
headroom plus the minimum lane group's worth of scratchpads, the planner
returns exactly `floor((free - dataset - headroom) / scratchpad / 32) * 32`,
which is a positive multiple of the lane-group width 32; otherwise it fails
with the insufficient-memory error and the setup sequence performs no buffer
allocation at all. -/
theorem c5_plan_batch (free dataset scratchpad : Nat) (hs : 0 < scratchpad) :
    (dataset + 32 * scratchpad + HEADROOM < free →
      plan_batch free dataset scratchpad =
        some ((((free - dataset - HEADROOM) / scratchpad) / 32) * 32) ∧
      ∀ l, plan_batch free dataset scratchpad = some l → 0 < l ∧ 32 ∣ l) ∧
    (free ≤ dataset + 32 * scratchpad + HEADROOM →
      plan_batch free dataset scratchpad = none ∧
      (miningSetup free dataset scratchpad).filter isAllocEvent = []) := by
  constructor
  · intro h
    have hnot : ¬ free ≤ dataset + 32 * scratchpad + HEADROOM := by omega
    constructor
    · simp only [plan_batch, if_neg hnot]
    · intro l hl
      simp only [plan_batch, if_neg hnot, Option.some.injEq] at hl
      have h32 : 32 ≤ (free - dataset - HEADROOM) / scratchpad := by
        rw [Nat.le_div_iff_mul_le hs]
        omega
      have h1 : 1 ≤ (free - dataset - HEADROOM) / scratchpad / 32 := by
        rw [Nat.le_div_iff_mul_le (by omega : 0 < 32)]
        omega
      constructor
      · have := Nat.mul_le_mul_right 32 h1
        omega
      · rw [← hl]
        exact dvd_mul_left 32 _
  · intro h
    have hplan : plan_batch free dataset scratchpad = none := by
      simp only [plan_batch, if_pos h]
    refine ⟨hplan, ?_⟩
    simp [miningSetup, hplan, isAllocEvent]

/-- Witness for `c5_plan_batch`: dataset 0, scratchpad size 1, free memory
one lane group plus one byte above the reservation, yielding batch size 32;
and the same inputs with insufficient memory yield no allocation. -/
theorem c5_plan_batch_witness :
    0 < 1 ∧
    ((0 + 32 * 1 + HEADROOM < 67108897 →
      plan_batch 67108897 0 1 = some ((((67108897 - 0 - HEADROOM) / 1) / 32) * 32) ∧
      ∀ l, plan_batch 67108897 0 1 = some l → 0 < l ∧ 32 ∣ l) ∧
    (67108897 ≤ 0 + 32 * 1 + HEADROOM →
      plan_batch 67108897 0 1 = none ∧
      (miningSetup 67108897 0 1).filter isAllocEvent = [])) :=
  ⟨by decide, c5_plan_batch 67108897 0 1 (by decide)⟩

/-! ## Claim C6 -/

/-- Claim C6 is contradicted by the source: in `test_mining` the
`initGroupA_registers` launch (kernel.cu line 237) is not followed by any
`cudaGetLastError` or synchronization check, while every other kernel launch
is.  Evaluating the mining trace of a one-batch run with 8 program rounds:
the launches not followed by a check are exactly the 8 register-init
launches. -/
theorem c6_unchecked_launch :
    (miningEvents 8 32 1).filter isUncheckedLaunch =
      List.replicate 8 (MEvent.launchInitRegs false) := by
  decide

/-! ## Claim C7 -/

/-- Claim C7 counterexample: the claim says a verification mismatch leaves
the remaining test cases running.  In `tests()` every mismatch does
`fprintf` and then `return`, so with a mismatch in the first of the six
cases only case 0 executes — not all six. -/
theorem c7_counterexample :
    casesRun [false, true, true, true, true, true] = [0] ∧
    casesRun [false, true, true, true, true, true] ≠ List.range NUM_TEST_CASES := by
  decide

theorem casesRun_all_prefix :
    ∀ pre post : List Bool, pre.all (fun bb => bb) = true →
      casesRun (pre ++ false :: post) = List.range (pre.length + 1) := by
  intro pre
  induction pre with
  | nil =>
    intro post hp
    simp [casesRun, List.range_succ]
  | cons b pre ih =>
    intro post hp
    simp only [List.all_cons, Bool.and_eq_true] at hp
    obtain ⟨hb, hrest⟩ := hp
    cases b
    · cases hb
    · rw [List.cons_append]
      show 0 :: (if true then (casesRun (pre ++ false :: post)).map (fun j => j + 1) else []) =
        List.range ((true :: pre).length + 1)
      rw [if_pos rfl, ih post hrest, List.length_cons]
      conv_rhs => rw [List.range_succ_eq_map]

/-- Claim C7 (amended): a verification mismatch is non-fatal for the process
(validation mode still exits 0, since `tests()` just returns and `main`
proceeds) but it is fatal for the harness: when the first mismatch occurs at
case `pre.length`, exactly the cases up to and including it execute and no
later case runs (the later cases consume the earlier cases' outputs, so they
are skipped). -/
theorem c7_mismatch_aborts (pre post : List Bool) (hpre : pre.all (fun bb => bb) = true) :
    testModeExitCode (pre ++ false :: post) = 0 ∧
    casesRun (pre ++ false :: post) = List.range (pre.length + 1) :=
  ⟨rfl, casesRun_all_prefix pre post hpre⟩

/-- Witness for `c7_mismatch_aborts`: six cases, case 0 passes, case 1
mismatches — cases 0 and 1 run, cases 2-5 do not. -/
theorem c7_mismatch_aborts_witness :
    [true].all (fun bb => bb) = true ∧
    (testModeExitCode ([true] ++ false :: [true, true, true, true]) = 0 ∧
      casesRun ([true] ++ false :: [true, true, true, true]) = List.range 2) :=
  ⟨by decide, c7_mismatch_aborts [true] [true, true, true, true] (by decide)⟩

/-! ## Claim C8 -/

/-- Claim C8 counterexample: the claim says the host writes the template
buffer exactly once per batch (an in-place nonce-window patch between
batches).  In a 2-batch run of `test_mining` the host writes the template
exactly once — the single upload before the loop (kernel.cu line 184) — not
twice, and no nonce patch of the buffer ever happens: the nonce window is a
kernel launch argument. -/
theorem c8_counterexample :
    (miningEvents 8 32 2).countP isHostTemplateWrite = 1 ∧
    (miningEvents 8 32 2).countP isHostTemplateWrite ≠ 2 := by
  decide

theorem countP_hostwrite_roundEvents (n i : Nat) :
    (roundEvents n i).countP isHostTemplateWrite = 0 := by
  by_cases h : i = n - 1
  · simp only [roundEvents, if_pos h]; decide
  · simp only [roundEvents, if_neg h]; decide

theorem countP_hostwrite_rounds (n : Nat) :
    ∀ j, ((List.range j).flatMap (roundEvents n)).countP isHostTemplateWrite = 0 := by
  intro j
  induction j with
  | zero => simp
  | succ j ih =>
    rw [List.range_succ, List.flatMap_append, List.countP_append, ih]
    simp [countP_hostwrite_roundEvents]

theorem countP_hostwrite_batch (n l k : Nat) :
    (batchEvents n l k).countP isHostTemplateWrite = 0 := by
  simp [batchEvents, List.countP_cons, List.countP_append, countP_hostwrite_rounds n n,
    isHostTemplateWrite]

theorem countP_hostwrite_batches (n l : Nat) :
    ∀ bs, ((List.range bs).flatMap (batchEvents n l)).countP isHostTemplateWrite = 0 := by
  intro bs
  induction bs with
  | zero => simp
  | succ bs ih =>
    rw [List.range_succ, List.flatMap_append, List.countP_append, ih]
    simp [countP_hostwrite_batch]

/-- Claim C8 (amended): during a mining run the shared template buffer is
written by the host exactly once per RUN — the full upload that is the very
first event, before any kernel launch (hence while no kernel referencing it
is in flight) — and no event of any batch writes it; the per-batch nonce
window is delivered to the initial-hash kernel as a launch argument, never
by patching the buffer. -/
theorem c8_template_writes (n l bs : Nat) :
    (miningEvents n l bs).countP isHostTemplateWrite = 1 ∧
    miningEvents n l bs =
      MEvent.hostWriteTemplate :: (List.range bs).flatMap (batchEvents n l) ∧
    ((List.range bs).flatMap (batchEvents n l)).countP isHostTemplateWrite = 0 := by
  refine ⟨?_, rfl, countP_hostwrite_batches n l bs⟩
  simp [miningEvents, List.countP_cons, countP_hostwrite_batches n l bs, isHostTemplateWrite]

/-! ## Claim C9 -/

/-- Claim C9: in continuous-search mode the nonce base starts at 0 and
advances by exactly the batch size after each batch, wrapping in its 32-bit
field; the initial-hash launch of batch `k` carries nonce window
`nonceAt l k`; and for every batch size divisible by the lane-group width 32
the `uint32_t` loop guard `nonce < 0xFFFFFFFF` is true at every batch (the
nonce is always a multiple of 32 and 0xFFFFFFFF is not), so the search
iterates nonce windows indefinitely. -/
theorem c9_nonce_window (n l k : Nat) (hl : 32 ∣ l) :
    nonceAt l 0 = 0 ∧
    nonceAt l (k + 1) = (nonceAt l k + l) % M32 ∧
    (batchEvents n l k).head? = some (MEvent.launchInitialHash (nonceAt l k) true) ∧
    miningLoopGuard l k = true := by
  refine ⟨by simp [nonceAt], ?_, rfl, ?_⟩
  · simp only [nonceAt, Nat.succ_mul, M32]
    generalize k * l = a
    omega
  · have hdvd : 32 ∣ nonceAt l k := by
      have h1 : 32 ∣ k * l := Dvd.dvd.mul_left hl k
      have h2 : (32 : Nat) ∣ M32 := by decide
      exact (Nat.dvd_mod_iff h2).mpr h1
    have hlt : nonceAt l k < M32 := Nat.mod_lt _ (by decide)
    have hne : nonceAt l k ≠ 4294967295 := by
      intro he
      rw [he] at hdvd
      exact absurd hdvd (by decide)
    simp only [miningLoopGuard, decide_eq_true_eq]
    simp only [M32] at hlt
    omega

/-- Witness for `c9_nonce_window`: batch size 32 (one lane group), batch 5,
8 program rounds. -/
theorem c9_nonce_window_witness :
    (32 : Nat) ∣ 32 ∧
    (nonceAt 32 0 = 0 ∧
      nonceAt 32 (5 + 1) = (nonceAt 32 5 + 32) % M32 ∧
      (batchEvents 8 32 5).head? = some (MEvent.launchInitialHash (nonceAt 32 5) true) ∧
      miningLoopGuard 32 5 = true) :=
  ⟨by decide, c9_nonce_window 8 32 5 (by decide)⟩
